import Mathlib

set_option maxRecDepth 8000

/-!
Shallow embedding of the `lab1` crate (Wang-style MD5 collision lab).

Machine integers (`u32`) are embedded as `Nat`, reduced modulo `2 ^ 32`
wherever the Rust code wraps.  Blocks (`[u32; 16]`) and byte buffers are
embedded as `List Nat`.  Fallible operations return `Option`.

The crate's unmodified MD5 module (`md5.rs`, giving `transform`,
`Context::consume`/`compute` used by `utils.rs`, `task2.rs`, `task3.rs`) is
not among the available sources; those definitions are modelled from the
specification and are marked `Modelled from the spec:` below.  Everything
else is translated from `md5_attack.rs`, `task3.rs`, `utils.rs`, `main.rs`,
`task2.rs` and `consts.rs`.
-/

/-- `2 ^ 32`, the `u32` modulus. -/
def M32 : Nat := 2 ^ 32

/-- Wrapping 32-bit addition (`u32::wrapping_add`; `add!` in `md5_attack.rs`). -/
def add32 (a b : Nat) : Nat := (a + b) % M32

/-- Wrapping 32-bit subtraction (`u32::wrapping_sub`; `sub!` in `md5_attack.rs`). -/
def sub32 (a b : Nat) : Nat := (a + (M32 - b % M32)) % M32

/-- Bitwise complement on `u32` (Rust `!x`). -/
def not32 (x : Nat) : Nat := (x % M32) ^^^ 0xffffffff

/-- `rotate_left!` from `md5_attack.rs`: `(x << n) | (x >> (32 - n))` on `u32`. -/
def rotl (x n : Nat) : Nat := ((x <<< n) % M32) ||| ((x % M32) >>> (32 - n))

/-- `rotate_right!` from `md5_attack.rs`: `(x >> n) | (x << (32 - n))` on `u32`. -/
def rotr (x n : Nat) : Nat := ((x % M32) >>> n) ||| ((x <<< (32 - n)) % M32)

/-- Round-1 bit function `F(x, y, z) = (x & y) | (!x & z)`. -/
def fF (x y z : Nat) : Nat := (x &&& y) ||| (not32 x &&& z)

/-- Round-2 bit function `G(x, y, z) = (x & z) | (y & !z)`. -/
def fG (x y z : Nat) : Nat := (x &&& z) ||| (y &&& not32 z)

/-- Round-3 bit function `H(x, y, z) = x ^ y ^ z`. -/
def fH (x y z : Nat) : Nat := x ^^^ y ^^^ z

/-- Round-4 bit function `I(x, y, z) = y ^ (x | !z)`. -/
def fI (x y z : Nat) : Nat := y ^^^ (x ||| not32 z)

/-- The four MD5 chaining registers (`state: [u32; 4]`). -/
structure St where
  a : Nat
  b : Nat
  c : Nat
  d : Nat
  deriving DecidableEq, Repr

/-- One MD5 step `T!`: `a = rotate_left(a + f(b,c,d) + x + ac, s) + b`,
all additions wrapping. -/
def tstep (f : Nat → Nat → Nat → Nat) (a b c d x s ac : Nat) : Nat :=
  add32 (rotl (add32 (add32 (add32 a (f b c d)) x) ac) s) b

/-- `T_INV!` from `md5_attack.rs`: recovers the message word consistent with
the (bit-fixed) output register `v`:
`x = rotate_right(v - b, s) - (F(b,c,d) + ac + a_prev)`. -/
def tinv (v ap b c d s ac : Nat) : Nat :=
  sub32 (rotr (sub32 v b) s) (add32 (add32 (fF b c d) ac) ap)

/-- Generic bit forcing: clear by `&&& n0`, set by `||| m1`, then overwrite the
bits selected by `mp` with the corresponding bits of `p`.  The `FIX_0`,
`FIX_1`, `FIX_PREV` updates of `md5_attack.rs` compose to
`fixg (not32 m0) m1 (not32 mp) mp` (with `mp = 0` at steps without the third
update, which makes the last stage the identity). -/
def fixg (n0 m1 np mp x p : Nat) : Nat := (((x &&& n0) ||| m1) &&& np) ||| (p &&& mp)

/-- The composite bit fix of one round-1 step of `transform_attack`. -/
def fixv (f0 f1 fp x p : Nat) : Nat := fixg (not32 f0) f1 (not32 fp) fp x p

/-- Descriptor of one round-1 step of `transform_attack`: rotation `s`,
additive constant `ac`, clear mask `f0` (`FIX_0`), set mask `f1` (`FIX_1`),
and copy-from-previous-register mask `fp` (`FIX_PREV`, `0` when absent). -/
structure R1Step where
  s : Nat
  ac : Nat
  f0 : Nat
  f1 : Nat
  fp : Nat
  deriving DecidableEq, Repr

/-- The 16 round-1 steps of `transform_attack` (`md5_attack.rs` lines 286-384),
in source order.  The rotation amounts are the file's `S1 = 7`, `S2 = 12`,
`S3 = 17`, `S4 = 2`; the masks are the `A1_0 .. B4_1` constants. -/
def R1TABLE : List R1Step :=
  [⟨7, 3614090360, 0x0a000820, 0x84200000, 0⟩,
   ⟨12, 3905402710, 0x02208026, 0x8c000800, 0x701f10c0⟩,
   ⟨17, 606105819, 0x40201080, 0xbe1f0966, 0x00000018⟩,
   ⟨2, 3250441966, 0x443b19ee, 0xba040010, 0x00000601⟩,
   ⟨7, 4118548399, 0xb41011af, 0x482f0e50, 0⟩,
   ⟨12, 1200080426, 0x9a1113a9, 0x04220c56, 0⟩,
   ⟨17, 2821735955, 0x083201c0, 0x96011e01, 0x01808000⟩,
   ⟨2, 4249261313, 0x1b810001, 0x843283c0, 0x00000002⟩,
   ⟨7, 1770035416, 0x03828202, 0x9c0101c1, 0x00001000⟩,
   ⟨12, 2336552879, 0x00041003, 0x878383c0, 0⟩,
   ⟨17, 4294925233, 0x00021000, 0x800583c3, 0x00086000⟩,
   ⟨2, 2304563134, 0x0007e000, 0x80081080, 0x7f000000⟩,
   ⟨7, 1804603682, 0xc0000080, 0x3f0fe008, 0⟩,
   ⟨12, 4254626195, 0xbf040000, 0x400be088, 0⟩,
   ⟨17, 2792965006, 0x82008008, 0x7d000000, 0⟩,
   ⟨2, 1236535329, 0x80000000, 0x20000000, 0⟩]

/-- Descriptor of one plain MD5 step: message-word index `k`, rotation `s`,
additive constant `ac`. -/
structure RStep where
  k : Nat
  s : Nat
  ac : Nat
  deriving DecidableEq, Repr

/-- Round 2 of `transform_attack` (`md5_attack.rs` lines 401-416); these are
the standard MD5 round-2 schedule and constants. -/
def R2TABLE : List RStep :=
  [⟨1, 5, 4129170786⟩, ⟨6, 9, 3225465664⟩, ⟨11, 14, 643717713⟩, ⟨0, 20, 3921069994⟩,
   ⟨5, 5, 3593408605⟩, ⟨10, 9, 38016083⟩, ⟨15, 14, 3634488961⟩, ⟨4, 20, 3889429448⟩,
   ⟨9, 5, 568446438⟩, ⟨14, 9, 3275163606⟩, ⟨3, 14, 4107603335⟩, ⟨8, 20, 1163531501⟩,
   ⟨13, 5, 2850285829⟩, ⟨2, 9, 4243563512⟩, ⟨7, 14, 1735328473⟩, ⟨12, 20, 2368359562⟩]

/-- Round 3 of `transform_attack` (`md5_attack.rs` lines 433-448); the standard
MD5 round-3 schedule and constants. -/
def R3TABLE : List RStep :=
  [⟨5, 4, 4294588738⟩, ⟨8, 11, 2272392833⟩, ⟨11, 16, 1839030562⟩, ⟨14, 23, 4259657740⟩,
   ⟨1, 4, 2763975236⟩, ⟨4, 11, 1272893353⟩, ⟨7, 16, 4139469664⟩, ⟨10, 23, 3200236656⟩,
   ⟨13, 4, 681279174⟩, ⟨0, 11, 3936430074⟩, ⟨3, 16, 3572445317⟩, ⟨6, 23, 76029189⟩,
   ⟨9, 4, 3654602809⟩, ⟨12, 11, 3873151461⟩, ⟨15, 16, 530742520⟩, ⟨2, 23, 3299628645⟩]

/-- Round 4 of `transform_attack` (`md5_attack.rs` lines 465-480); the standard
MD5 round-4 schedule and constants. -/
def R4TABLE : List RStep :=
  [⟨0, 6, 4096336452⟩, ⟨7, 10, 1126891415⟩, ⟨14, 15, 2878612391⟩, ⟨5, 21, 4237533241⟩,
   ⟨12, 6, 1700485571⟩, ⟨3, 10, 2399980690⟩, ⟨10, 15, 4293915773⟩, ⟨1, 21, 2240044497⟩,
   ⟨8, 6, 1873313359⟩, ⟨15, 10, 4264355552⟩, ⟨6, 15, 2734768916⟩, ⟨13, 21, 1309151649⟩,
   ⟨4, 6, 4149444226⟩, ⟨11, 10, 3174756917⟩, ⟨2, 15, 718787259⟩, ⟨9, 21, 3951481745⟩]

/-- The standard MD5 round 1 (rotations `7, 12, 17, 22`, same additive
constants, message words in order).  Modelled from the spec: round 1 of the
Compression Core in the missing `md5.rs` ("the standard MD5 round-constant
table" with "fixed left-rotation amounts"). -/
def MD5R1TABLE : List RStep :=
  [⟨0, 7, 3614090360⟩, ⟨1, 12, 3905402710⟩, ⟨2, 17, 606105819⟩, ⟨3, 22, 3250441966⟩,
   ⟨4, 7, 4118548399⟩, ⟨5, 12, 1200080426⟩, ⟨6, 17, 2821735955⟩, ⟨7, 22, 4249261313⟩,
   ⟨8, 7, 1770035416⟩, ⟨9, 12, 2336552879⟩, ⟨10, 17, 4294925233⟩, ⟨11, 22, 2304563134⟩,
   ⟨12, 7, 1804603682⟩, ⟨13, 12, 4254626195⟩, ⟨14, 17, 2792965006⟩, ⟨15, 22, 1236535329⟩]

/-- One round-1 step of `transform_attack` on the rotated register file
`r = (A, B, C, D)` (the step's target register is `A`, the previous step's
output is `B`, and `A`'s pre-step value is the `*_prev` value used by
`T_INV!`).  Returns the bit-fixed register value and the derived message
word that `T_INV!` writes back into the block. -/
def r1step (t : R1Step) (r : St) (x : Nat) : Nat × Nat :=
  (fixv t.f0 t.f1 t.fp (tstep fF r.a r.b r.c r.d x t.s t.ac) r.b,
   tinv (fixv t.f0 t.f1 t.fp (tstep fF r.a r.b r.c r.d x t.s t.ac) r.b)
     r.a r.b r.c r.d t.s t.ac)

/-- Runs the round-1 steps of `transform_attack` from message-word index `i`,
rewriting each consumed word of the block with the derived word
(the in-place `input[i] = T_INV!(...)` of the source). -/
def runRound1 : List R1Step → Nat → St → List Nat → St × List Nat
  | [], _, r, inp => (r, inp)
  | t :: ts, i, r, inp =>
    let vw := r1step t r (inp.getD i 0)
    runRound1 ts (i + 1) ⟨r.d, vw.1, r.b, r.c⟩ (inp.set i vw.2)

/-- The bit-fixed register values produced by the round-1 steps of
`transform_attack`, in step order (observer of `runRound1`). -/
def runRound1Trace : List R1Step → Nat → St → List Nat → List Nat
  | [], _, _, _ => []
  | t :: ts, i, r, inp =>
    let vw := r1step t r (inp.getD i 0)
    vw.1 :: runRound1Trace ts (i + 1) ⟨r.d, vw.1, r.b, r.c⟩ (inp.set i vw.2)

/-- One plain MD5 step on the rotated register file. -/
def pstep (f : Nat → Nat → Nat → Nat) (t : RStep) (r : St) (inp : List Nat) : Nat :=
  tstep f r.a r.b r.c r.d (inp.getD t.k 0) t.s t.ac

/-- Runs a list of plain MD5 steps (rounds 2-4 of `transform_attack`;
all four rounds of the modelled `transform`). -/
def runRound (f : Nat → Nat → Nat → Nat) : List RStep → St → List Nat → St
  | [], r, _ => r
  | t :: ts, r, inp => runRound f ts ⟨r.d, pstep f t r inp, r.b, r.c⟩ inp

/-- The register value after each step of a list of plain MD5 steps
(observer of `runRound`). -/
def runRoundTrace (f : Nat → Nat → Nat → Nat) : List RStep → St → List Nat → List Nat
  | [], _, _ => []
  | t :: ts, r, inp =>
    let v := pstep f t r inp
    v :: runRoundTrace f ts ⟨r.d, v, r.b, r.c⟩ inp

/-- `transform_attack` from `md5_attack.rs` (lines 195-486): the differential
round-1 (bit fixes + derived message words, mutating the block in place)
followed by the unmodified rounds 2-4, then the final wrapping additions onto
the incoming state.  Returns the new state and the mutated block. -/
def transform_attack (s : St) (input : List Nat) : St × List Nat :=
  let p := runRound1 R1TABLE 0 s input
  let r := runRound fG R2TABLE p.1 p.2
  let r := runRound fH R3TABLE r p.2
  let r := runRound fI R4TABLE r p.2
  (⟨add32 s.a r.a, add32 s.b r.b, add32 s.c r.c, add32 s.d r.d⟩, p.2)

/-- Modelled from the spec: `transform` of the missing `md5.rs` — the
unmodified MD5 compression function ("the four standard MD5 rounds", standard
rotation amounts and round constants, all arithmetic mod `2^32`). -/
def transform (s : St) (input : List Nat) : St :=
  let r := runRound fF MD5R1TABLE s input
  let r := runRound fG R2TABLE r input
  let r := runRound fH R3TABLE r input
  let r := runRound fI R4TABLE r input
  ⟨add32 s.a r.a, add32 s.b r.b, add32 s.c r.c, add32 s.d r.d⟩

/-- The MD5 initial value (`Context::new` in `md5_attack.rs`, lines 100-109). -/
def IV : St := ⟨0x67452301, 0xefcdab89, 0x98badcfe, 0x10325476⟩

/-! ### The collision search of `task3.rs` -/

/-- The first baked-in seed state (`m0_init` in `task3.rs`, lines 13-21):
the intended chaining value after absorbing the first block `M0`. -/
def m0InitState : St := ⟨0x52589324, 0x3093d7ca, 0x2a06dc54, 0x20c5be06⟩

/-- The second baked-in seed state (`m0_p_init` in `task3.rs`, lines 23-31):
the intended chaining value after absorbing the first block `M0'`. -/
def m0pInitState : St := ⟨0xd2589324, 0xb293d7ca, 0xac06dc54, 0xa2c5be06⟩

/-- The difference-vector application of `find_m1_m1_p` (`task3.rs` lines
51-54): `m1_p` is a copy of `m1` with `m1_p[4] += 0x80`, `m1_p[11] -= 0x20`,
`m1_p[14] += 0x80`, all wrapping. -/
def applyDiff (m1 : List Nat) : List Nat :=
  let m := m1.set 4 (add32 (m1.getD 4 0) 0x80)
  let m := m.set 11 (sub32 (m.getD 11 0) 0x20)
  m.set 14 (add32 (m.getD 14 0) 0x80)

/-- One iteration of the `while !found` loop of `find_m1_m1_p` (`task3.rs`
lines 43-59), for one candidate block `cand` drawn by `rand_m1`: run
`transform_attack` on the first seed state (mutating the candidate), derive
`m1_p`, run the unmodified `transform` on the second seed state, and succeed
exactly when the two resulting states are equal. -/
def findAttempt (cand : List Nat) : Option (List Nat × List Nat) :=
  let p := transform_attack m0InitState cand
  let m1p := applyDiff p.2
  let s2 := transform m0pInitState m1p
  if p.1 = s2 then some (p.2, m1p) else none

/-- The shape of the `while !found` retry loop: keep attempting until an
attempt succeeds, indexed by fuel because the retries are unbounded by
design. -/
def findLoop (att : Nat → Option (List Nat × List Nat)) : Nat → Option (List Nat × List Nat)
  | 0 => none
  | fuel + 1 =>
    match att fuel with
    | some r => some r
    | none => findLoop att fuel

/-- The retry loop of `find_m1_m1_p` (`task3.rs` lines 33-65).  The seeded
`fastrand` generator is abstracted as the stream of candidate blocks it
would produce (`stream n` is the block drawn at the n-th remaining attempt);
the loop is fuel-indexed because it is unbounded by design. -/
def find_m1_m1_p (stream : Nat → List Nat) (fuel : Nat) : Option (List Nat × List Nat) :=
  findLoop (fun n => findAttempt (stream n)) fuel

/-! ### Bytes, digests and the streaming context -/

/-- Little-endian byte serialization of a 32-bit word (`u32::to_le_bytes`). -/
def leBytes4 (w : Nat) : List Nat :=
  [w % 256, w / 256 % 256, w / 65536 % 256, w / 16777216 % 256]

/-- Big-endian byte serialization of a 32-bit word (`u32::to_be_bytes`). -/
def beBytes4 (w : Nat) : List Nat :=
  [w / 16777216 % 256, w / 65536 % 256, w / 256 % 256, w % 256]

/-- `Context::compute_attack` from `md5_attack.rs` (lines 120-129): the final
digest bytes, serializing each state word with `to_be_bytes`, in word order
`a, b, c, d`. -/
def compute_attack (s : St) : List Nat :=
  beBytes4 s.a ++ beBytes4 s.b ++ beBytes4 s.c ++ beBytes4 s.d

/-- Modelled from the spec: `digest_from` of the missing `md5.rs` — the
reference MD5 digest serialization, "the four 32-bit words
little-endian-per-word into 16 bytes, in word order a,b,c,d". -/
def digest_from (s : St) : List Nat :=
  leBytes4 s.a ++ leBytes4 s.b ++ leBytes4 s.c ++ leBytes4 s.d

/-- Groups a byte list into 32-bit words, little-endian per word (the layout
used both by the block loading in `consume_attack` and by the reference MD5). -/
def wordsOf : List Nat → List Nat
  | b0 :: b1 :: b2 :: b3 :: rest =>
    (b0 + 256 * b1 + 65536 * b2 + 16777216 * b3) :: wordsOf rest
  | _ => []

/-- Modelled from the spec: MD5 padding of the missing `md5.rs` — "append a
single 1 bit, zero-pad to 56 bytes mod 64, append 64-bit little-endian bit
length". -/
def padMsg (msg : List Nat) : List Nat :=
  let ml := msg.length
  let bits := 8 * ml % 2 ^ 64
  msg ++ 0x80 :: List.replicate ((119 - ml % 64) % 64) 0 ++
    [bits % 256, bits / 2 ^ 8 % 256, bits / 2 ^ 16 % 256, bits / 2 ^ 24 % 256,
     bits / 2 ^ 32 % 256, bits / 2 ^ 40 % 256, bits / 2 ^ 48 % 256, bits / 2 ^ 56 % 256]

/-- Groups a word list into 16-word blocks (64-byte chunks). -/
def blocksOf : List Nat → List (List Nat)
  | w0 :: w1 :: w2 :: w3 :: w4 :: w5 :: w6 :: w7 ::
    w8 :: w9 :: w10 :: w11 :: w12 :: w13 :: w14 :: w15 :: rest =>
    [w0, w1, w2, w3, w4, w5, w6, w7, w8, w9, w10, w11, w12, w13, w14, w15] :: blocksOf rest
  | _ => []

/-- Modelled from the spec: the multi-block chunking of the missing `md5.rs` —
absorbs consecutive 64-byte chunks into the state with `transform`. -/
def absorbBlocks (s : St) (bytes : List Nat) : St :=
  (blocksOf (wordsOf bytes)).foldl transform s

/-- Modelled from the spec: the full-message digest of the missing `md5.rs`
(`Context::new`, `consume`, `compute`): standard padding and chaining from the
MD5 initial value, digest serialized little-endian per word. -/
def md5bytes (msg : List Nat) : List Nat :=
  digest_from (absorbBlocks IV (padMsg msg))

/-- The streaming context of `md5_attack.rs` (lines 87-91): 64-byte absorption
buffer, two-word bit-length counter, and chaining state. -/
structure Context where
  buffer : List Nat
  count0 : Nat
  count1 : Nat
  state : St
  deriving DecidableEq, Repr

/-- `Context::new` from `md5_attack.rs` (lines 100-109). -/
def Context.new : Context :=
  ⟨List.replicate 64 0, 0, 0, IV⟩

/-- The byte-absorption loop of `consume_attack` (`md5_attack.rs` lines
177-192): append each byte to the buffer at position `k`; when `k` reaches
`0x40`, load the 16 little-endian words from the buffer, run
`transform_attack` on them (the mutated scratch block is discarded), and
reset `k` to 0. -/
def absorb : List Nat → Nat → St → List Nat → List Nat × Nat × St
  | buf, k, st, [] => (buf, k, st)
  | buf, k, st, byte :: rest =>
    let buf := buf.set k byte
    let k := k + 1
    if k = 0x40 then
      absorb buf 0 (transform_attack st (wordsOf buf)).1 rest
    else
      absorb buf k st rest

/-- `consume_attack` from `md5_attack.rs` (lines 161-193): update the bit
counter (wrapping, with carry into `count1`), then absorb the data bytes. -/
def consume_attack (ctx : Context) (data : List Nat) : Context :=
  let k := (ctx.count0 >>> 3) &&& 0x3f
  let length := data.length % M32
  let c0 := (ctx.count0 + (length <<< 3) % M32) % M32
  let c1 := if c0 < (length <<< 3) % M32 then (ctx.count1 + 1) % M32 else ctx.count1
  let c1 := (c1 + length >>> 29) % M32
  let r := absorb ctx.buffer k ctx.state data
  ⟨r.1, c0, c1, r.2.2⟩

/-! ### `utils.rs`, `main.rs`, `task2.rs`, `consts.rs` -/

/-- ASCII whitespace in the sense of `str::split_ascii_whitespace`
(space, tab, newline, form feed, carriage return). -/
def isAsciiWs (c : Char) : Bool :=
  c.toNat = 32 || c.toNat = 9 || c.toNat = 10 || c.toNat = 12 || c.toNat = 13

/-- `split_ascii_whitespace`: the maximal nonempty runs of
non-whitespace characters. -/
def splitWs (l : List Char) : List (List Char) :=
  (l.foldr (fun c acc =>
    match acc with
    | w :: ws => if isAsciiWs c then [] :: w :: ws else (c :: w) :: ws
    | [] => []) [[]]).filter (fun w => !w.isEmpty)

/-- The numeric value of one hexadecimal digit, in either case
(`char::is_digit(16)` / `to_digit(16)`). -/
def hexDigitVal (c : Char) : Option Nat :=
  if '0' ≤ c ∧ c ≤ '9' then some (c.toNat - 48)
  else if 'a' ≤ c ∧ c ≤ 'f' then some (c.toNat - 87)
  else if 'A' ≤ c ∧ c ≤ 'F' then some (c.toNat - 55)
  else none

/-- The digits of a word after the optional leading `+` sign accepted by
`u32::from_str_radix`. -/
def hexDigits (w : List Char) : List Char :=
  match w with
  | '+' :: rest => rest
  | _ => w

/-- One digit step of `from_str_radix`: checked `acc * 16 + d`, failing on a
non-digit character or once the value leaves the `u32` range. -/
def parseStep (acc : Option Nat) (c : Char) : Option Nat :=
  match acc, hexDigitVal c with
  | some a, some d => if a * 16 + d < M32 then some (a * 16 + d) else none
  | _, _ => none

/-- `u32::from_str_radix(word, 16)`: an optional leading `+`, then at least
one hexadecimal digit, accumulated most-significant first with the checked
step. -/
def parseU32Hex (w : List Char) : Option Nat :=
  if (hexDigits w).isEmpty then none
  else (hexDigits w).foldl parseStep (some 0)

/-- The word loop of `str_to_bytes` (`utils.rs` lines 3-12, identical copy in
`main.rs` lines 3-12): parse each word as a `u32` (a failed `unwrap` aborts,
embedded as `none`) and push its 4 little-endian bytes. -/
def strToBytesWords : List (List Char) → Option (List Nat)
  | [] => some []
  | w :: ws =>
    match parseU32Hex w with
    | none => none
    | some v => (strToBytesWords ws).map (fun rest => leBytes4 v ++ rest)

/-- `str_to_bytes` from `utils.rs`/`main.rs`: split on ASCII whitespace, parse
each word as hexadecimal `u32`, serialize little-endian, concatenate.
`none` models the `unwrap` panic. -/
def str_to_bytes (l : List Char) : Option (List Nat) :=
  strToBytesWords (splitWs l)

/-- Lowercase hex digit character. -/
def hexChar (n : Nat) : Char :=
  if n < 10 then Char.ofNat (48 + n) else Char.ofNat (87 + n)

/-- The `{:x}` rendering of a digest: `%02x` per byte, lowercase, in byte
order. -/
def hexStr (bytes : List Nat) : List Char :=
  (bytes.map (fun b => [hexChar (b / 16 % 16), hexChar (b % 16)])).flatten

/-- `verify` from `utils.rs` (lines 14-28), with the two `println!` lines made
explicit: returns (bytes printed on the line `m  ->`, bytes printed on the
line `m' ->`, returned boolean).  The digests come from the modelled `md5.rs`
streaming path (two `consume` calls then `compute`). -/
def utilsVerify (m0 m1 m0p m1p : List Nat) : List Nat × List Nat × Bool :=
  let digest := md5bytes (m0 ++ m1)
  let digestP := md5bytes (m0p ++ m1p)
  (digest, digestP, digest == digestP)

/-- `verify` from `main.rs` (lines 14-28), with the two `println!` lines made
explicit.  The source prints `digest_p` on BOTH lines (`println!("m  -> {:x}",
digest_p)`), and returns equality of the two `format!("{:x}", _)` strings. -/
def mainVerify (m0 m1 m0p m1p : List Nat) : List Nat × List Nat × Bool :=
  let digest := md5bytes (m0 ++ m1)
  let digestP := md5bytes (m0p ++ m1p)
  (digestP, digestP, hexStr digest == hexStr digestP)

/-- The fixture string for `M0` (`consts.rs` lines 3-6; the same literal
appears in `task2.rs` and `main.rs`). -/
def m0Str : List Char :=
  "2dd31d1 c4eee6c5  69a3d69 5cf9af98 87b5ca2f ab7e4612 3e580440 897ffbb8\n    634ad55  2b3f409 8388e483 5a417125 e8255108 9fc9cdf7 f2bd1dd9 5b3c3780".toList

/-- The fixture string for `M1` (`consts.rs` lines 8-11). -/
def m1Str : List Char :=
  "d11d0b96 9c7b41dc f497d8e4 d555655a c79a7335  cfdebf0 66f12930 8fb109d1\n    797f2775 eb5cd530 baade822 5c15cc79 ddcb74ed 6dd3c55f d80a9bb1 e3a7cc35".toList

/-- The fixture string for `M0'` (`consts.rs` lines 13-16). -/
def m0pStr : List Char :=
  "2dd31d1 c4eee6c5 69a3d69 5cf9af98 7b5ca2f ab7e4612 3e580440 897ffbb8\n    634ad55 2b3f409 8388e483 5a41f125 e8255108 9fc9cdf7 72bd1dd9 5b3c3780".toList

/-- The fixture string for `M1'` (`consts.rs` lines 18-21). -/
def m1pStr : List Char :=
  "d11d0b96 9c7b41dc f497d8e4 d555655a 479a7335 cfdebf0 66f12930 8fb109d1\n    797f2775 eb5cd530 baade822 5c154c79 ddcb74ed 6dd3c55f 580a9bb1 e3a7cc35".toList

/-- The parsed `M0` fixture bytes (`consts.rs` `m0()`). -/
def m0Bytes : List Nat := (str_to_bytes m0Str).getD []

/-- The parsed `M1` fixture bytes (`consts.rs` `m1()`). -/
def m1Bytes : List Nat := (str_to_bytes m1Str).getD []

/-- The parsed `M0'` fixture bytes (`consts.rs` `m0_p()`). -/
def m0pBytes : List Nat := (str_to_bytes m0pStr).getD []

/-- The parsed `M1'` fixture bytes (`consts.rs` `m1_p()`). -/
def m1pBytes : List Nat := (str_to_bytes m1pStr).getD []

/-! ### Auxiliary observers and specification-side predicates -/

/-- Every rotation amount instantiated by `transform_attack`: the round-1
amounts (used by both `rotate_left!` in `T!` and `rotate_right!` in `T_INV!`)
followed by the round-2 to round-4 amounts. -/
def attackRotations : List Nat :=
  R1TABLE.map (fun t => t.s) ++ (R2TABLE ++ R3TABLE ++ R4TABLE).map (fun t => t.s)

/-- An 8-digit hexadecimal word (the well-formedness notion used by the
specification's "valid 8-digit hexadecimal"). -/
def is8Hex (w : List Char) : Bool :=
  w.length == 8 && w.all (fun c => (hexDigitVal c).isSome)

/-- The round-1 schedule of `transform_attack` read as plain (unfixed) MD5
steps: message words in order, the file's rotation amounts `7, 12, 17, 2`
and round-1 additive constants. -/
def ATTACKR1PLAIN : List RStep :=
  ((List.range 16).zip R1TABLE).map (fun p => ⟨p.1, p.2.s, p.2.ac⟩)

/-- The unbounded numeric value of a digit string continued from `a` (most
significant digit first), ignoring range. -/
def valFrom (a : Nat) (ds : List Char) : Nat :=
  ds.foldl (fun x c => x * 16 + (hexDigitVal c).getD 0) a

/-- The unbounded numeric value of a hexadecimal word, ignoring range. -/
def hexValOf (w : List Char) : Nat :=
  valFrom 0 (hexDigits w)

/-- Specification-side validity of a word for `u32::from_str_radix(_, 16)`:
an optional `+`, at least one hexadecimal digit, and a value below `2^32`. -/
def validU32Hex (w : List Char) : Bool :=
  !(hexDigits w).isEmpty && (hexDigits w).all (fun c => (hexDigitVal c).isSome) &&
    hexValOf w < M32

/-- Reverses each consecutive group of 4 bytes (the per-word byte reversal
relating big-endian and little-endian word serialization). -/
def rev4 : List Nat → List Nat
  | b0 :: b1 :: b2 :: b3 :: rest => b3 :: b2 :: b1 :: b0 :: rev4 rest
  | l => l

/-- The collision postcondition of `find_m1_m1_p`: a returned pair
`(m1, m1_p)` satisfies the difference vector, and transforming the first
baked-in seed state with `m1` (via `transform_attack`, as the loop does)
yields, in all four words, the state obtained by transforming the second
baked-in seed state with `m1_p` via the unmodified `transform`. -/
def collisionFound : Option (List Nat × List Nat) → Prop
  | none => True
  | some r =>
    r.2 = applyDiff r.1 ∧ (transform_attack m0InitState r.1).1 = transform m0pInitState r.2

/-! ### Arithmetic lemmas about the 32-bit primitives -/

theorem M32_pos : 0 < M32 := by decide

theorem add32_lt (a b : Nat) : add32 a b < M32 :=
  Nat.mod_lt _ M32_pos

theorem sub32_lt (a b : Nat) : sub32 a b < M32 :=
  Nat.mod_lt _ M32_pos

theorem shiftRight_le_self (x s : Nat) : x >>> s ≤ x := by
  rw [Nat.shiftRight_eq_div_pow]
  exact Nat.div_le_self _ _

theorem rotr_lt (x s : Nat) : rotr x s < M32 := by
  unfold rotr M32
  exact Nat.or_lt_two_pow
    (lt_of_le_of_lt (shiftRight_le_self _ _) (Nat.mod_lt _ (by decide)))
    (Nat.mod_lt _ (by decide))

theorem rotl_rotr (x s : Nat) (hx : x < M32) (h0 : 0 < s) (h1 : s < 32) :
    rotl (rotr x s) s = x := by
  have hxm : x % M32 = x := Nat.mod_eq_of_lt hx
  apply Nat.eq_of_testBit_eq
  intro i
  simp only [rotl, rotr, M32, hxm, Nat.testBit_or, Nat.testBit_mod_two_pow,
    Nat.testBit_shiftLeft, Nat.testBit_shiftRight] at *
  rcases Nat.lt_or_ge i 32 with hi | hi
  · rcases Nat.lt_or_ge i s with his | his
    · have h2 : ¬ s ≤ i := by omega
      have h3 : 32 - s + i < 32 := by omega
      have h4 : 32 - s ≤ 32 - s + i := by omega
      have h5 : 32 - s + i - (32 - s) = i := by omega
      have h6 : x.testBit (s + (32 - s + i)) = false :=
        Nat.testBit_lt_two_pow (lt_of_lt_of_le hx (Nat.pow_le_pow_right (by omega) (by omega)))
      simp [h2, h3, h4, h5, h6, hi]
    · have h2 : ¬ 32 - s + i < 32 := by omega
      have h3 : s + (i - s) = i := by omega
      have h4 : ¬ 32 - s ≤ i - s := by omega
      simp [his, h2, h3, h4, hi]
  · have h2 : ¬ i < 32 := by omega
    have h3 : ¬ 32 - s + i < 32 := by omega
    have h6 : x.testBit i = false :=
      Nat.testBit_lt_two_pow (lt_of_lt_of_le hx (Nat.pow_le_pow_right (by omega) (by omega)))
    simp [h2, h3, h6]

theorem M32_val : M32 = 4294967296 := by decide

theorem add32_cancel (p q r t : Nat) :
    add32 (add32 (add32 p q) (sub32 t (add32 (add32 q r) p))) r = t % M32 := by
  simp only [add32, sub32, M32_val]
  omega

theorem sub32_add_cancel (v b : Nat) (hv : v < M32) : add32 (sub32 v b) b = v := by
  simp only [add32, sub32, M32_val] at *
  omega

/-- Re-running a `T!` step with the message word derived by `T_INV!`
reproduces exactly the fixed register value. -/
theorem tstep_tinv (f : Nat → Nat → Nat → Nat) (A B C D v s ac : Nat)
    (hf : f B C D = fF B C D) (hv : v < M32) (h0 : 0 < s) (h1 : s < 32) :
    tstep f A B C D (tinv v A B C D s ac) s ac = v := by
  unfold tstep tinv
  rw [hf]
  rw [add32_cancel A (fF B C D) ac (rotr (sub32 v B) s)]
  rw [Nat.mod_eq_of_lt (rotr_lt _ _)]
  rw [rotl_rotr _ s (sub32_lt _ _) h0 h1]
  exact sub32_add_cancel v B hv

/-- The composite bit fix is idempotent (per bit it either forces a constant,
copies the matching bit of `p`, or passes the input through). -/
theorem fixg_idem (n0 m1 np mp p x : Nat) :
    fixg n0 m1 np mp (fixg n0 m1 np mp x p) p = fixg n0 m1 np mp x p := by
  unfold fixg
  apply Nat.eq_of_testBit_eq
  intro i
  simp only [Nat.testBit_or, Nat.testBit_and]
  generalize x.testBit i = b1
  generalize p.testBit i = b2
  generalize n0.testBit i = b3
  generalize m1.testBit i = b4
  generalize np.testBit i = b5
  generalize mp.testBit i = b6
  revert b1 b2 b3 b4 b5 b6
  decide

theorem fixv_idem (f0 f1 fp p x : Nat) :
    fixv f0 f1 fp (fixv f0 f1 fp x p) p = fixv f0 f1 fp x p :=
  fixg_idem _ _ _ _ _ _

theorem not32_lt (m : Nat) : not32 m < M32 := by
  unfold not32 M32
  exact Nat.xor_lt_two_pow (Nat.mod_lt _ (by decide)) (by decide)

theorem fixv_lt (f0 f1 fp x p : Nat) (hp : p < M32) : fixv f0 f1 fp x p < M32 := by
  unfold fixv fixg M32
  exact Nat.or_lt_two_pow
    (lt_of_le_of_lt Nat.and_le_right (not32_lt fp))
    (lt_of_le_of_lt Nat.and_le_left hp)

/-! ### List access lemmas -/

theorem getD_set_eq (l : List Nat) : ∀ (i v : Nat), i < l.length →
    (l.set i v).getD i 0 = v := by
  induction l with
  | nil => intro i v h; simp at h
  | cons x xs ih =>
    intro i v h
    cases i with
    | zero => rfl
    | succ j => simpa using ih j v (by simpa using h)

theorem getD_set_ne (l : List Nat) : ∀ (i j v : Nat), i ≠ j →
    (l.set i v).getD j 0 = l.getD j 0 := by
  induction l with
  | nil => intro i j v _; rfl
  | cons x xs ih =>
    intro i j v h
    cases i with
    | zero =>
      cases j with
      | zero => exact absurd rfl h
      | succ j2 => rfl
    | succ i2 =>
      cases j with
      | zero => rfl
      | succ j2 => simpa using ih i2 j2 v (by omega)

theorem set_getD_self (l : List Nat) : ∀ i : Nat, l.set i (l.getD i 0) = l := by
  induction l with
  | nil => intro i; rfl
  | cons x xs ih =>
    intro i
    cases i with
    | zero => rfl
    | succ j => simpa using ih j

/-! ### Stability of the differential round 1 under re-running -/

theorem runRound1_cons (t : R1Step) (ts : List R1Step) (i : Nat) (r : St) (inp : List Nat) :
    runRound1 (t :: ts) i r inp =
      runRound1 ts (i + 1) ⟨r.d, (r1step t r (inp.getD i 0)).1, r.b, r.c⟩
        (inp.set i (r1step t r (inp.getD i 0)).2) := rfl

theorem runRound1_length (tbl : List R1Step) : ∀ (i : Nat) (r : St) (inp : List Nat),
    ((runRound1 tbl i r inp).2).length = inp.length := by
  induction tbl with
  | nil => intro i r inp; rfl
  | cons t ts ih =>
    intro i r inp
    rw [runRound1_cons, ih]
    simp

theorem runRound1_getD_lt (tbl : List R1Step) : ∀ (i j : Nat) (r : St) (inp : List Nat),
    j < i → ((runRound1 tbl i r inp).2).getD j 0 = inp.getD j 0 := by
  induction tbl with
  | nil => intro i j r inp _; rfl
  | cons t ts ih =>
    intro i j r inp hj
    rw [runRound1_cons, ih _ _ _ _ (by omega)]
    exact getD_set_ne _ _ _ _ (by omega)

/-- Re-running one round-1 step of `transform_attack` on the message word it
derived reproduces the same fixed register and the same derived word. -/
theorem r1step_stable (t : R1Step) (r : St) (x : Nat) (hb : r.b < M32)
    (h0 : 0 < t.s) (h1 : t.s < 32) :
    r1step t r (r1step t r x).2 = r1step t r x := by
  unfold r1step
  rw [tstep_tinv fF r.a r.b r.c r.d _ t.s t.ac rfl (fixv_lt _ _ _ _ _ hb) h0 h1]
  rw [fixv_idem]

/-- Re-running the differential round 1 on the block it derived reproduces
the same registers and leaves the block unchanged. -/
theorem runRound1_stable (tbl : List R1Step) :
    ∀ (i : Nat) (r : St) (inp : List Nat),
      r.a < M32 → r.b < M32 → r.c < M32 → r.d < M32 →
      (∀ t ∈ tbl, 0 < t.s ∧ t.s < 32) →
      runRound1 tbl i r (runRound1 tbl i r inp).2 = runRound1 tbl i r inp := by
  induction tbl with
  | nil => intro i r inp _ _ _ _ _; rfl
  | cons t ts ih =>
    intro i r inp ha hb hc hd hs
    have hst : 0 < t.s ∧ t.s < 32 := hs t (List.mem_cons_self _ _)
    have hts : ∀ u ∈ ts, 0 < u.s ∧ u.s < 32 := fun u hu => hs u (List.mem_cons_of_mem _ hu)
    have hxF : ((runRound1 (t :: ts) i r inp).2).getD i 0 =
        (inp.set i (r1step t r (inp.getD i 0)).2).getD i 0 := by
      rw [runRound1_cons]
      exact runRound1_getD_lt ts (i + 1) i _ _ (by omega)
    have hA : r1step t r (((runRound1 (t :: ts) i r inp).2).getD i 0) =
        r1step t r (inp.getD i 0) := by
      rcases Nat.lt_or_ge i inp.length with hi | hi
      · rw [hxF, getD_set_eq _ _ _ hi]
        exact r1step_stable t r _ hb hst.1 hst.2
      · rw [hxF, List.set_eq_of_length_le (by omega)]
    have hB : ((runRound1 (t :: ts) i r inp).2).set i (r1step t r (inp.getD i 0)).2 =
        (runRound1 (t :: ts) i r inp).2 := by
      rcases Nat.lt_or_ge i inp.length with hi | hi
      · have h2 : ((runRound1 (t :: ts) i r inp).2).getD i 0 =
            (r1step t r (inp.getD i 0)).2 := by
          rw [hxF]
          exact getD_set_eq _ _ _ hi
        rw [← h2, set_getD_self]
      · refine List.set_eq_of_length_le ?_
        rw [runRound1_length]
        omega
    conv_lhs => rw [runRound1_cons]
    rw [hA, hB]
    rw [runRound1_cons t ts i r inp]
    exact ih (i + 1) _ _ hd (fixv_lt _ _ _ _ _ hb) hb hc hts

/-- Re-running `transform_attack` on the block it corrected reproduces the
same output state and leaves the block unchanged. -/
theorem transform_attack_stable (s : St) (c : List Nat)
    (ha : s.a < M32) (hb : s.b < M32) (hc : s.c < M32) (hd : s.d < M32) :
    transform_attack s (transform_attack s c).2 = transform_attack s c := by
  have hrots : ∀ t ∈ R1TABLE, 0 < t.s ∧ t.s < 32 := by decide
  have h := runRound1_stable R1TABLE 0 s c ha hb hc hd hrots
  show transform_attack s (runRound1 R1TABLE 0 s c).2 = _
  simp only [transform_attack]
  rw [h]

/-! ### The claims -/

/-- Unfolding the retry loop on a failed attempt. -/
theorem findLoop_succ_none (att : Nat → Option (List Nat × List Nat)) (n : Nat)
    (h : att n = none) : findLoop att (n + 1) = findLoop att n := by
  simp only [findLoop, h]

/-- Unfolding the retry loop on a successful attempt. -/
theorem findLoop_succ_some (att : Nat → Option (List Nat × List Nat)) (n : Nat)
    (r : List Nat × List Nat) (h : att n = some r) : findLoop att (n + 1) = some r := by
  simp only [findLoop, h]

/-- A successful attempt of the search loop satisfies the collision
postcondition. -/
theorem findAttempt_post (cand : List Nat) (r : List Nat × List Nat)
    (hr : findAttempt cand = some r) : collisionFound (some r) := by
  have hstab := transform_attack_stable m0InitState cand
    (by decide) (by decide) (by decide) (by decide)
  simp only [findAttempt] at hr
  generalize hp : transform_attack m0InitState cand = p at hr hstab
  obtain ⟨s1, m1⟩ := p
  split at hr
  · rename_i heq
    injection hr with hr2
    subst hr2
    exact ⟨rfl, (congrArg Prod.fst hstab).trans heq⟩
  · exact Option.noConfusion hr

/-- C1: partial correctness of the search loop of `find_m1_m1_p`: whenever the
loop returns a pair `(m1, m1_p)` (for any candidate stream and any fuel), the
state obtained by transforming the first baked-in seed state with `m1` equals,
in all four 32-bit words, the state obtained by transforming the second
baked-in seed state with `m1_p`; on a failed comparison the loop retries (the
`none` branch recurses), so it returns only when this equality holds. -/
theorem c1_find_partial_correctness (stream : Nat → List Nat) (fuel : Nat) :
    collisionFound (find_m1_m1_p stream fuel) := by
  show collisionFound (findLoop (fun n => findAttempt (stream n)) fuel)
  induction fuel with
  | zero => trivial
  | succ n ih =>
    cases hr : findAttempt (stream n) with
    | none =>
      rw [findLoop_succ_none (fun k => findAttempt (stream k)) n hr]
      exact ih
    | some r =>
      rw [findLoop_succ_some (fun k => findAttempt (stream k)) n r hr]
      exact findAttempt_post (stream n) r hr

/-- C2: the round-trip claim fails on the code: `transform_attack` uses
rotation `2` (the file's `S4`) at round-1 steps 4, 8, 12 and 16 instead of
the standard `22`, so re-running the unmodified standard round 1 (rotations
`7, 12, 17, 22`) on the original state with the mutated block does NOT
reproduce the fixed register value at step 4 — here evaluated at the first
baked-in seed state and the all-zero block (`0x288eebcb ≠ 0xbac48410`) —
while re-running with the file's own schedule (rotation `2`) reproduces the
whole fixed trace, showing the derived words are consistent only with the
non-standard rotation. -/
theorem c2_round_trip_rotation_bug :
    (runRoundTrace fF MD5R1TABLE m0InitState
        (transform_attack m0InitState (List.replicate 16 0)).2).getD 3 0 = 0x288eebcb ∧
    (runRound1Trace R1TABLE 0 m0InitState (List.replicate 16 0)).getD 3 0 = 0xbac48410 ∧
    (runRoundTrace fF MD5R1TABLE m0InitState
        (transform_attack m0InitState (List.replicate 16 0)).2).getD 3 0 ≠
      (runRound1Trace R1TABLE 0 m0InitState (List.replicate 16 0)).getD 3 0 ∧
    runRoundTrace fF ATTACKR1PLAIN m0InitState
        (transform_attack m0InitState (List.replicate 16 0)).2 =
      runRound1Trace R1TABLE 0 m0InitState (List.replicate 16 0) := by
  refine ⟨by decide, by decide, by decide, by decide⟩

theorem add32_ne_self (x c : Nat) (h0 : 0 < c) (h1 : c < M32) : add32 x c ≠ x := by
  simp only [add32, M32_val] at *
  omega

/-- C3: for every 16-word block `m1`, the derived block differs from `m1` in
exactly words 4, 11 and 14 — by `+0x80`, `−0x20` and `+0x80` modulo `2^32`
respectively — and is identical in all other words. -/
theorem c3_difference_vector (m1 : List Nat) (h : m1.length = 16) :
    (applyDiff m1).getD 4 0 = (m1.getD 4 0 + 0x80) % 2 ^ 32 ∧
    (applyDiff m1).getD 11 0 = (m1.getD 11 0 + (2 ^ 32 - 0x20)) % 2 ^ 32 ∧
    (applyDiff m1).getD 14 0 = (m1.getD 14 0 + 0x80) % 2 ^ 32 ∧
    (applyDiff m1).getD 4 0 ≠ m1.getD 4 0 ∧
    (applyDiff m1).getD 11 0 ≠ m1.getD 11 0 ∧
    (applyDiff m1).getD 14 0 ≠ m1.getD 14 0 ∧
    (applyDiff m1).length = 16 ∧
    ∀ i : Nat, i < 16 → i ≠ 4 → i ≠ 11 → i ≠ 14 →
      (applyDiff m1).getD i 0 = m1.getD i 0 := by
  have e4 : (applyDiff m1).getD 4 0 = add32 (m1.getD 4 0) 0x80 := by
    unfold applyDiff
    rw [getD_set_ne _ _ _ _ (by omega), getD_set_ne _ _ _ _ (by omega),
      getD_set_eq _ _ _ (by omega)]
  have e11 : (applyDiff m1).getD 11 0 = sub32 (m1.getD 11 0) 0x20 := by
    unfold applyDiff
    rw [getD_set_ne _ _ _ _ (by omega), getD_set_eq _ _ _ (by simp [h]),
      getD_set_ne _ _ _ _ (by omega)]
  have e14 : (applyDiff m1).getD 14 0 = add32 (m1.getD 14 0) 0x80 := by
    unfold applyDiff
    rw [getD_set_eq _ _ _ (by simp [h]), getD_set_ne _ _ _ _ (by omega),
      getD_set_ne _ _ _ _ (by omega)]
  have f4 : add32 (m1.getD 4 0) 0x80 = (m1.getD 4 0 + 0x80) % 2 ^ 32 := rfl
  have f11 : sub32 (m1.getD 11 0) 0x20 = (m1.getD 11 0 + (2 ^ 32 - 0x20)) % 2 ^ 32 := by
    simp only [sub32, M32]
    norm_num
  have f14 : add32 (m1.getD 14 0) 0x80 = (m1.getD 14 0 + 0x80) % 2 ^ 32 := rfl
  refine ⟨e4.trans f4, e11.trans f11, e14.trans f14, ?_, ?_, ?_, ?_, ?_⟩
  · rw [e4]; exact add32_ne_self _ _ (by decide) (by decide)
  · rw [e11]
    show add32 (m1.getD 11 0) (M32 - 0x20 % M32) ≠ m1.getD 11 0
    exact add32_ne_self _ _ (by decide) (by decide)
  · rw [e14]; exact add32_ne_self _ _ (by decide) (by decide)
  · simp [applyDiff, h]
  · intro i hi hi4 hi11 hi14
    unfold applyDiff
    rw [getD_set_ne _ _ _ _ (by omega), getD_set_ne _ _ _ _ (by omega),
      getD_set_ne _ _ _ _ (by omega)]

theorem c3_difference_vector_witness :
    (List.replicate 16 (0:Nat)).length = 16 ∧
    ((applyDiff (List.replicate 16 0)).getD 4 0 =
        ((List.replicate 16 (0:Nat)).getD 4 0 + 0x80) % 2 ^ 32 ∧
      (applyDiff (List.replicate 16 0)).getD 11 0 =
        ((List.replicate 16 (0:Nat)).getD 11 0 + (2 ^ 32 - 0x20)) % 2 ^ 32 ∧
      (applyDiff (List.replicate 16 0)).getD 14 0 =
        ((List.replicate 16 (0:Nat)).getD 14 0 + 0x80) % 2 ^ 32 ∧
      (applyDiff (List.replicate 16 0)).getD 4 0 ≠ (List.replicate 16 (0:Nat)).getD 4 0 ∧
      (applyDiff (List.replicate 16 0)).getD 11 0 ≠ (List.replicate 16 (0:Nat)).getD 11 0 ∧
      (applyDiff (List.replicate 16 0)).getD 14 0 ≠ (List.replicate 16 (0:Nat)).getD 14 0 ∧
      (applyDiff (List.replicate 16 0)).length = 16 ∧
      ∀ i : Nat, i < 16 → i ≠ 4 → i ≠ 11 → i ≠ 14 →
        (applyDiff (List.replicate 16 0)).getD i 0 = (List.replicate 16 (0:Nat)).getD i 0) :=
  ⟨by decide, c3_difference_vector (List.replicate 16 0) (by decide)⟩

/-- C4 counterexample: the digest-from-state operation of the code
(`compute_attack`) does NOT serialize little-endian-per-word: at the MD5
initial value it yields the big-endian bytes `67 45 23 01 ...`, not the
little-endian `01 23 45 67 ...` required by the claim (and by the reference
MD5 serialization `digest_from`). -/
theorem c4_compute_attack_not_little_endian :
    compute_attack IV = [0x67, 0x45, 0x23, 0x01, 0xef, 0xcd, 0xab, 0x89,
      0x98, 0xba, 0xdc, 0xfe, 0x10, 0x32, 0x54, 0x76] ∧
    digest_from IV = [0x01, 0x23, 0x45, 0x67, 0x89, 0xab, 0xcd, 0xef,
      0xfe, 0xdc, 0xba, 0x98, 0x76, 0x54, 0x32, 0x10] ∧
    compute_attack IV ≠ digest_from IV := by
  refine ⟨by decide, by decide, by decide⟩

/-- C4 (amended): `compute_attack` serializes the four state words
big-endian-per-word, in word order a,b,c,d, with no failure modes — i.e. it
is the reference little-endian digest with each 4-byte word reversed — and
consequently the single-block digest it produces does not match the reference
MD5 vectors (evaluated here on the padded block of `"abc"`). -/
theorem c4_compute_attack_big_endian :
    (∀ s : St, compute_attack s = rev4 (digest_from s)) ∧
    compute_attack (absorbBlocks IV (padMsg [0x61, 0x62, 0x63])) ≠
      md5bytes [0x61, 0x62, 0x63] := by
  constructor
  · intro s; rfl
  · decide

/-- C5: the Verifier applied to the four compiled-in fixture blocks (Wang's
published quadruple, parsed by `str_to_bytes` exactly as in `consts.rs` and
`task2.rs`) prints two identical digests and returns `true`: the two
two-block messages collide under the modelled reference MD5. -/
theorem c5_fixture_quadruple_verifies :
    (utilsVerify m0Bytes m1Bytes m0pBytes m1pBytes).2.2 = true ∧
    (utilsVerify m0Bytes m1Bytes m0pBytes m1pBytes).1 =
      (utilsVerify m0Bytes m1Bytes m0pBytes m1pBytes).2.1 := by
  refine ⟨by decide, by decide⟩

/-- C6: the baked-in seed states are genuine chaining values: compressing the
MD5 initial value with the fixture block `M0` yields exactly the state
installed by `m0_init`, and compressing it with `M0'` yields exactly the
state installed by `m0_p_init`. -/
theorem c6_seed_states_are_chaining_values :
    transform IV (wordsOf m0Bytes) = m0InitState ∧
    transform IV (wordsOf m0pBytes) = m0pInitState := by
  refine ⟨by decide, by decide⟩

/-- C8: the `verify` of `main.rs` prints the SECOND message's digest on the
line labeled `m  ->`: at the concrete input `m0 = m1 = m0' = []`,
`m1' = [0x00]`, the bytes it prints on that line are the digest of the second
message, differ from the digest of the first message (which the claim
mandates), the two printed lines coincide, and the returned boolean is
`false` as the digests differ. -/
theorem c8_main_verify_prints_wrong_digest :
    (mainVerify [] [] [] [0]).1 = md5bytes ([] ++ [0]) ∧
    (mainVerify [] [] [] [0]).1 ≠ md5bytes ([] ++ ([] : List Nat)) ∧
    hexStr (mainVerify [] [] [] [0]).1 ≠ hexStr (md5bytes ([] ++ ([] : List Nat))) ∧
    (mainVerify [] [] [] [0]).1 = (mainVerify [] [] [] [0]).2.1 ∧
    (mainVerify [] [] [] [0]).2.2 = false := by
  refine ⟨by decide, by decide, by decide, by decide, by decide⟩

theorem absorb_state_eq (data : List Nat) : ∀ (buf : List Nat) (k : Nat) (st : St),
    k + data.length < 64 → (absorb buf k st data).2.2 = st := by
  induction data with
  | nil => intros; rfl
  | cons b rest ih =>
    intro buf k st h
    simp only [List.length_cons] at h
    simp only [absorb]
    rw [if_neg (by omega)]
    exact ih _ _ _ (by omega)

/-- C9: buffering frame property of `consume_attack`: whenever the buffered
byte count plus the data length stays below 64 (so no appended byte completes
a 64-byte buffer boundary), the chaining state is left unchanged — only the
buffer and the bit counter change. -/
theorem c9_consume_attack_state_frame (ctx : Context) (data : List Nat)
    (h : ((ctx.count0 >>> 3) &&& 0x3f) + data.length < 64) :
    (consume_attack ctx data).state = ctx.state := by
  show (absorb ctx.buffer ((ctx.count0 >>> 3) &&& 0x3f) ctx.state data).2.2 = ctx.state
  exact absorb_state_eq data _ _ _ h

theorem c9_consume_attack_state_frame_witness :
    ((Context.new.count0 >>> 3) &&& 0x3f) + [1, 2, 3].length < 64 ∧
    (consume_attack Context.new [1, 2, 3]).state = Context.new.state :=
  ⟨by decide, c9_consume_attack_state_frame Context.new [1, 2, 3] (by decide)⟩

/-- C10: every rotation amount instantiated by the `rotate_left!` and
`rotate_right!` expansions inside `transform_attack` is strictly between 0
and 32, and so is its complement `32 − n`, so both shifts stay in range for
`u32` and the transform is total. -/
theorem c10_rotation_amounts_in_range (n : Nat) (h : n ∈ attackRotations) :
    (0 < n ∧ n < 32) ∧ (0 < 32 - n ∧ 32 - n < 32) := by
  have h2 := List.all_eq_true.mp
    (by decide : attackRotations.all (fun m => decide (0 < m) && decide (m < 32)) = true) n h
  simp only [Bool.and_eq_true, decide_eq_true_eq] at h2
  exact ⟨h2, by omega⟩

theorem c10_rotation_amounts_in_range_witness :
    7 ∈ attackRotations ∧ ((0 < 7 ∧ 7 < 32) ∧ (0 < 32 - 7 ∧ 32 - 7 < 32)) :=
  ⟨by decide, c10_rotation_amounts_in_range 7 (by decide)⟩

/-! ### Characterization of the fixture parser -/

theorem foldl_parseStep_none (ds : List Char) : ds.foldl parseStep none = none := by
  induction ds with
  | nil => rfl
  | cons c cs ih => exact ih

theorem valFrom_le (ds : List Char) : ∀ a : Nat, a ≤ valFrom a ds := by
  induction ds with
  | nil => intro a; exact Nat.le_refl a
  | cons c cs ih =>
    intro a
    have h1 : a ≤ a * 16 + (hexDigitVal c).getD 0 := by omega
    exact le_trans h1 (ih _)

theorem foldl_parseStep_eq (ds : List Char) : ∀ a : Nat, a < M32 →
    ds.foldl parseStep (some a) =
      if (ds.all (fun c => (hexDigitVal c).isSome) = true ∧ valFrom a ds < M32)
      then some (valFrom a ds) else none := by
  induction ds with
  | nil =>
    intro a ha
    simp [valFrom, ha]
  | cons c cs ih =>
    intro a ha
    show cs.foldl parseStep (parseStep (some a) c) = _
    cases hc : hexDigitVal c with
    | none =>
      have hstep : parseStep (some a) c = none := by simp [parseStep, hc]
      have hall : (c :: cs).all (fun x => (hexDigitVal x).isSome) = false := by simp [hc]
      rw [hstep, foldl_parseStep_none, if_neg]
      rw [hall]
      simp
    | some d =>
      have hv : valFrom a (c :: cs) = valFrom (a * 16 + d) cs := by
        show valFrom (a * 16 + (hexDigitVal c).getD 0) cs = _
        rw [hc]
        rfl
      have hall : ((c :: cs).all (fun x => (hexDigitVal x).isSome) = true) ↔
          (cs.all (fun x => (hexDigitVal x).isSome) = true) := by simp [hc]
      by_cases hlt : a * 16 + d < M32
      · have hstep : parseStep (some a) c = some (a * 16 + d) := by
          simp [parseStep, hc, hlt]
        rw [hstep, ih _ hlt, hv]
        simp only [hall]
      · have hstep : parseStep (some a) c = none := by simp [parseStep, hc, hlt]
        have hge := valFrom_le cs (a * 16 + d)
        rw [hstep, foldl_parseStep_none, if_neg]
        rw [hv]
        intro hcon
        omega

theorem parseU32Hex_eq (w : List Char) :
    parseU32Hex w = if validU32Hex w = true then some (hexValOf w) else none := by
  cases hD : hexDigits w with
  | nil => simp [parseU32Hex, validU32Hex, hD]
  | cons c cs =>
    rw [parseU32Hex, validU32Hex, hexValOf, hD]
    simp only [List.isEmpty_cons, Bool.false_eq_true, if_false]
    rw [foldl_parseStep_eq (c :: cs) 0 (by decide)]
    simp [Bool.and_eq_true, decide_eq_true_eq]

theorem strToBytesWords_spec (ws : List (List Char)) :
    (strToBytesWords ws = none ↔ ¬ (ws.all validU32Hex = true)) ∧
    ∀ bs, strToBytesWords ws = some bs →
      bs = (ws.map (fun w => leBytes4 (hexValOf w))).flatten := by
  induction ws with
  | nil =>
    constructor
    · simp [strToBytesWords]
    · intro bs h
      injection h with h2
      rw [← h2]
      rfl
  | cons w ws ih =>
    by_cases hv : validU32Hex w = true
    · have hw : strToBytesWords (w :: ws) =
          (strToBytesWords ws).map (fun rest => leBytes4 (hexValOf w) ++ rest) := by
        simp only [strToBytesWords, parseU32Hex_eq w, if_pos hv]
      cases hws : strToBytesWords ws with
      | none =>
        rw [hw, hws]
        constructor
        · constructor
          · intro _ hall
            simp only [List.all_cons, hv, Bool.true_and] at hall
            exact (ih.1.mp hws) hall
          · intro _
            rfl
        · intro bs h
          exact Option.noConfusion h
      | some rest =>
        rw [hw, hws]
        have hallws : ws.all validU32Hex = true := by
          by_contra hna
          have h0 := ih.1.mpr hna
          rw [hws] at h0
          exact Option.noConfusion h0
        constructor
        · constructor
          · intro h
            exact Option.noConfusion h
          · intro h
            exact absurd (show (w :: ws).all validU32Hex = true by
              simp [List.all_cons, hv, hallws]) h
        · intro bs h
          have h3 : some (leBytes4 (hexValOf w) ++ rest) = some bs := h
          injection h3 with h2
          rw [← h2, List.map_cons, List.flatten_cons, ih.2 rest hws]
    · have hw : strToBytesWords (w :: ws) = none := by
        simp only [strToBytesWords, parseU32Hex_eq w, if_neg hv]
      rw [hw]
      constructor
      · constructor
        · intro _ hall
          simp only [List.all_cons, Bool.and_eq_true] at hall
          exact hv hall.1
        · intro _
          rfl
      · intro bs h
        exact Option.noConfusion h

/-- C7 counterexample: the claim's "aborts iff some word is not valid 8-digit
hexadecimal" fails on the 7-digit word `2dd31d1` (taken from the `M0`
fixture itself): the word is not 8-digit hexadecimal, yet `str_to_bytes`
does not abort on it. -/
theorem c7_eight_digit_iff_fails :
    ¬ ((str_to_bytes (String.toList "2dd31d1") = none) ↔
      ¬ ((splitWs (String.toList "2dd31d1")).all is8Hex = true)) := by decide

/-- C7 (amended): `str_to_bytes` aborts (models the `unwrap` panic) if and
only if some whitespace-separated word of the input is not valid hexadecimal
for `u32` — an optional `+`, then at least one hex digit in either case,
with value below `2^32`; the digit count need not be 8 — and on every
non-aborting input it parses each word as a `u32` and serializes it to 4
little-endian bytes, concatenated in written order. -/
theorem c7_str_to_bytes_spec (l : List Char) :
    (str_to_bytes l = none ↔ ¬ ((splitWs l).all validU32Hex = true)) ∧
    ∀ bs, str_to_bytes l = some bs →
      bs = ((splitWs l).map (fun w => leBytes4 (hexValOf w))).flatten :=
  strToBytesWords_spec (splitWs l)

theorem c7_str_to_bytes_spec_witness :
    ([0xef, 0xbe, 0xad, 0xde, 0x00, 0x00, 0x00, 0x00] : List Nat) =
      ((splitWs (String.toList "deadbeef 0")).map (fun w => leBytes4 (hexValOf w))).flatten :=
  (c7_str_to_bytes_spec (String.toList "deadbeef 0")).2
    [0xef, 0xbe, 0xad, 0xde, 0x00, 0x00, 0x00, 0x00] (by decide)
